import Mathlib

/-!
Verification development for the y-webrtc transport layer
(message chunking codec and signaling adapters).

The chunk codec is modelled from the specification (the implementation file
is not part of the sources here; only its design document is).  The
signaling adapters are embedded from `src/signaling-adapters.js`.
-/

set_option autoImplicit false

/-! ## Chunk codec -/


/-- Byte strings are modelled as lists of naturals. -/
abbrev Bytes := List Nat

/-- Modelled from the spec: the wire `Frame` tagged union, either a
`Plain` payload or a `Chunk` carrying a chunk id, a 0-based index, the
total number of chunks, and a slice of the payload. -/
inductive Frame where
  | plain (payload : Bytes)
  | chunk (chunkId : Nat) (index : Nat) (total : Nat) (payload : Bytes)
deriving DecidableEq

/-- Reassembly buffers are keyed by the pair of peer id and chunk id. -/
abbrev BufKey := String × Nat

/-- Association-list lookup over buffer keys. -/
def alookup {α : Type} : List (BufKey × α) → BufKey → Option α
  | [], _ => none
  | (k, v) :: rest, k' => if k = k' then some v else alookup rest k'

/-- Association-list insert-or-replace over buffer keys. -/
def aset {α : Type} : List (BufKey × α) → BufKey → α → List (BufKey × α)
  | [], k, v => [(k, v)]
  | (k', v') :: rest, k, v =>
    if k' = k then (k, v) :: rest else (k', v') :: aset rest k v

/-- Association-list removal of one key. -/
def aremove {α : Type} : List (BufKey × α) → BufKey → List (BufKey × α)
  | [], _ => []
  | (k', v) :: rest, k =>
    if k' = k then aremove rest k else (k', v) :: aremove rest k

/-- Modelled from the spec: the reassembly state.  `buffers` is the live
buffer table, holding for each `(peerId, chunkId)` key the ordered slot
array (one optional slice per index).  `tombs` records keys whose buffer
was already deleted, by completed reassembly or by a peer purge; a chunk
referencing such a key is stale and is silently ignored. -/
structure ChunkState where
  buffers : List (BufKey × List (Option Bytes))
  tombs : List BufKey
deriving DecidableEq

/-- The empty reassembly state. -/
def chunkInit : ChunkState := ⟨[], []⟩

/-- Ceiling division used to compute the number of chunks. -/
def ceilDiv (n l : Nat) : Nat := (n + l - 1) / l

/-- Modelled from the spec: `createChunks` (the codec's `fragment`).  A
payload of length at most `limit` becomes a single `Plain` frame;
otherwise the payload is cut into `ceil(length / limit)` contiguous
slices of at most `limit` bytes, tagged with a shared fresh chunk id and
indices in order.  (The chunk id is a parameter here; the source draws it
at random.) -/
def createChunks (payload : Bytes) (limit : Nat) (chunkId : Nat) : List Frame :=
  if payload.length ≤ limit then [Frame.plain payload]
  else
    (List.range (ceilDiv payload.length limit)).map (fun i =>
      Frame.chunk chunkId i (ceilDiv payload.length limit)
        ((payload.drop (i * limit)).take limit))

/-- Concatenation of the slot array of a completed buffer, in index
order. -/
def joinSlots (slots : List (Option Bytes)) : Bytes :=
  slots.foldr (fun o acc => o.getD [] ++ acc) []

/-- Modelled from the spec: `reassembleChunk` (the codec's `reassemble`).
A `Plain` frame returns its payload at once.  A `Chunk` frame whose key
was already deleted (tombstoned) is stale: it is ignored and the call
returns incomplete (`none`).  Otherwise the buffer for the key is looked
up or created (sized from this frame's `total`), the payload is written
into its slot (last write wins), and if every slot is now full the
concatenation is returned and the buffer deleted; otherwise the call
returns incomplete. -/
def reassembleChunk (st : ChunkState) (peerId : String) (f : Frame) :
    ChunkState × Option Bytes :=
  match f with
  | .plain p => (st, some p)
  | .chunk cid idx total p =>
    if (peerId, cid) ∈ st.tombs then (st, none)
    else
      let slots := (alookup st.buffers (peerId, cid)).getD (List.replicate total none)
      let slots2 := slots.set idx (some p)
      if slots2.all Option.isSome then
        (⟨aremove st.buffers (peerId, cid), (peerId, cid) :: st.tombs⟩,
         some (joinSlots slots2))
      else
        (⟨aset st.buffers (peerId, cid) slots2, st.tombs⟩, none)

/-- Splits a buffer table into the entries not owned by the given peer
and the keys of the entries that are owned by it. -/
def purgeBufs : List (BufKey × List (Option Bytes)) → String →
    List (BufKey × List (Option Bytes)) × List BufKey
  | [], _ => ([], [])
  | (k, v) :: rest, pid =>
    let r := purgeBufs rest pid
    if k.1 = pid then (r.1, k :: r.2) else ((k, v) :: r.1, r.2)

/-- Modelled from the spec: the peer-scoped purge run at peer teardown.
Every buffer owned by the peer is deleted, and its key is tombstoned so
that late chunks for it are treated as stale. -/
def purgePeer (st : ChunkState) (peerId : String) : ChunkState :=
  ⟨(purgeBufs st.buffers peerId).1, (purgeBufs st.buffers peerId).2 ++ st.tombs⟩

/-- Feeds a list of frames to `reassembleChunk` in order under one peer
id and returns the final state together with the result of the last
call. -/
def feedFrames (st : ChunkState) (peerId : String) : List Frame → ChunkState × Option Bytes
  | [] => (st, none)
  | f :: fs =>
    let r := reassembleChunk st peerId f
    match fs with
    | [] => r
    | g :: gs => feedFrames r.1 peerId (g :: gs)

/-- The slice of the payload carried by chunk number `i`. -/
def sliceAt (m : Bytes) (limit i : Nat) : Bytes :=
  (m.drop (i * limit)).take limit


/-- The slot array of a partially reassembled fragmented payload: the
first `k` slots hold the first `k` slices, the remaining `t - k` slots
are still empty. -/
def slotsUpTo (m : Bytes) (L t k : Nat) : List (Option Bytes) :=
  ((List.range k).map (fun i => some (sliceAt m L i))) ++ List.replicate (t - k) none

/-! ## Signaling adapters

Embedded from `src/signaling-adapters.js`.  The adapters are written in
direct style: each operation takes the hook table and the adapter state
and returns the new state, the ordered list of observable events
(hook invocations, websocket traffic, Echo whispers and leaves, emitted
adapter events), and the operation's outcome.  Asynchronous hook chains
are interpreted sequentially: every awaited call completes before the
next statement runs.  The error hooks `onConnectError` and
`onDisconnectError` are declared in the source's hook typedef as plain
void callbacks, so they are modelled as present-or-absent observers that
cannot themselves fail. -/
/-- Topics are strings, published payloads are opaque values. -/
abbrev Topic := String

/-- Opaque published data. -/
abbrev Data := Nat

/-- Failures raised by hook callbacks or by the adapter factory. -/
inductive Err where
  | hookFail (code : Nat)
  | configErr
deriving DecidableEq

/-- The hook table of `SignalingAdapterHooks`.  Awaited hooks are
modelled as optional functions returning an `Except` outcome; the
`onBeforePublish` hook may in addition return a replacement pair (its
`none` result stands for every return value that is not an object with
both a `topic` and a `data` field).  The error hooks are modelled by
their presence. -/
structure Hooks where
  onBeforeConnect : Option (String → Except Err Unit)
  onAfterConnect : Option (String → Except Err Unit)
  onBeforeDisconnect : Option (Except Err Unit)
  onAfterDisconnect : Option (Except Err Unit)
  onBeforeSubscribe : Option (List Topic → Except Err Unit)
  onAfterSubscribe : Option (List Topic → Except Err Unit)
  onBeforeUnsubscribe : Option (List Topic → Except Err Unit)
  onAfterUnsubscribe : Option (List Topic → Except Err Unit)
  onBeforePublish : Option (Topic → Data → Except Err (Option (Topic × Data)))
  onAfterPublish : Option (Topic → Data → Except Err Unit)
  onConnectError : Bool
  onDisconnectError : Bool

/-- The empty hook table. -/
def noHooks : Hooks :=
  ⟨none, none, none, none, none, none, none, none, none, none, false, false⟩

/-- Messages sent over the default adapter's websocket. -/
inductive WsMsg where
  | sub (ts : List Topic)
  | unsub (ts : List Topic)
  | pub (t : Topic) (d : Data)
deriving DecidableEq

/-- Observable events of one adapter operation, in execution order. -/
inductive Ev where
  | hook (name : String)
  | hookPub (name : String) (t : Topic) (d : Data)
  | wsCreate (url : String)
  | wsClose
  | wsSend (m : WsMsg)
  | emitEv (name : String)
  | whisper (t : Topic) (d : Data)
  | leave (ch : String)
deriving DecidableEq

/-- Backend-visible effects (websocket traffic and Echo channel
operations), as opposed to hook invocations and local event emissions. -/
def isEffect : Ev → Bool
  | .wsCreate _ => true
  | .wsClose => true
  | .wsSend _ => true
  | .whisper _ _ => true
  | .leave _ => true
  | _ => false

/-- Runs an argument-free hook, recording its invocation. -/
def runHook0 (name : String) (h : Option (Except Err Unit)) :
    List Ev × Except Err Unit :=
  match h with
  | none => ([], .ok ())
  | some r => ([Ev.hook name], r)

/-- Runs a one-argument hook, recording its invocation. -/
def runHook1 {α : Type} (name : String) (h : Option (α → Except Err Unit)) (a : α) :
    List Ev × Except Err Unit :=
  match h with
  | none => ([], .ok ())
  | some f => ([Ev.hook name], f a)

/-- Runs the `onAfterPublish` hook, recording the pair it was passed. -/
def runHookPub (name : String) (h : Option (Topic → Data → Except Err Unit))
    (t : Topic) (d : Data) : List Ev × Except Err Unit :=
  match h with
  | none => ([], .ok ())
  | some f => ([Ev.hookPub name t d], f t d)

/-- Runs the `onBeforePublish` hook and resolves the pair to publish:
the hook's replacement pair when it returns one, the original pair
otherwise. -/
def runBeforePublish (h : Option (Topic → Data → Except Err (Option (Topic × Data))))
    (t : Topic) (d : Data) : List Ev × Except Err (Topic × Data) :=
  match h with
  | none => ([], .ok (t, d))
  | some f =>
    match f t d with
    | .error e => ([Ev.hookPub "onBeforePublish" t d], .error e)
    | .ok none => ([Ev.hookPub "onBeforePublish" t d], .ok (t, d))
    | .ok (some (t', d')) => ([Ev.hookPub "onBeforePublish" t d], .ok (t', d'))

/-- The `onConnectError` hook invocation, when the hook is present. -/
def connErrEvs (hk : Hooks) : List Ev :=
  if hk.onConnectError then [Ev.hook "onConnectError"] else []

/-- The `onDisconnectError` hook invocation, when the hook is present. -/
def discErrEvs (hk : Hooks) : List Ev :=
  if hk.onDisconnectError then [Ev.hook "onDisconnectError"] else []

/-- State of a `DefaultSignalingAdapter`: the websocket client (its url)
when one exists, the `connected` flag (set only by websocket events) and
the last requested url. -/
structure DState where
  wsConn : Option String
  connected : Bool
  url : String
deriving DecidableEq

/-- A freshly constructed `DefaultSignalingAdapter`. -/
def dInit : DState := ⟨none, false, ""⟩

/-- `DefaultSignalingAdapter.disconnect`: the before hook, then closing
and dropping the websocket and clearing `connected`, then the after
hook; a hook failure runs `onDisconnectError` and re-raises. -/
def dDisconnect (hk : Hooks) (st : DState) : DState × List Ev × Except Err Unit :=
  let b := runHook0 "onBeforeDisconnect" hk.onBeforeDisconnect
  match b.2 with
  | .error e => (st, b.1 ++ discErrEvs hk, .error e)
  | .ok _ =>
    let effEvs := if st.wsConn.isSome then [Ev.wsClose] else []
    let st1 : DState := ⟨none, false, st.url⟩
    let a := runHook0 "onAfterDisconnect" hk.onAfterDisconnect
    match a.2 with
    | .error e => (st1, b.1 ++ effEvs ++ a.1 ++ discErrEvs hk, .error e)
    | .ok _ => (st1, b.1 ++ effEvs ++ a.1, .ok ())

/-- `DefaultSignalingAdapter.connect`: the before hook, then a
disconnect of any previous websocket (invoked without awaiting, so its
own failure is not propagated), then the websocket construction, then
the after hook; a hook failure runs `onConnectError` and re-raises. -/
def dConnect (hk : Hooks) (st : DState) (u : String) : DState × List Ev × Except Err Unit :=
  let b := runHook1 "onBeforeConnect" hk.onBeforeConnect u
  match b.2 with
  | .error e => (st, b.1 ++ connErrEvs hk, .error e)
  | .ok _ =>
    let d := if st.wsConn.isSome then
        ((dDisconnect hk st).1, (dDisconnect hk st).2.1)
      else (st, [])
    let st2 : DState := ⟨some u, d.1.connected, u⟩
    let a := runHook1 "onAfterConnect" hk.onAfterConnect u
    match a.2 with
    | .error e => (st2, b.1 ++ d.2 ++ [Ev.wsCreate u] ++ a.1 ++ connErrEvs hk, .error e)
    | .ok _ => (st2, b.1 ++ d.2 ++ [Ev.wsCreate u] ++ a.1, .ok ())

/-- `DefaultSignalingAdapter.subscribe`: the before hook, then the
subscribe frame is sent only when a websocket exists and is connected,
then the after hook.  There is no catch clause: a hook failure simply
propagates. -/
def dSubscribe (hk : Hooks) (st : DState) (ts : List Topic) :
    DState × List Ev × Except Err Unit :=
  let b := runHook1 "onBeforeSubscribe" hk.onBeforeSubscribe ts
  match b.2 with
  | .error e => (st, b.1, .error e)
  | .ok _ =>
    let effEvs := if st.wsConn.isSome && st.connected then [Ev.wsSend (WsMsg.sub ts)] else []
    let a := runHook1 "onAfterSubscribe" hk.onAfterSubscribe ts
    (st, b.1 ++ effEvs ++ a.1, a.2)

/-- `DefaultSignalingAdapter.unsubscribe`, symmetric to subscribe. -/
def dUnsubscribe (hk : Hooks) (st : DState) (ts : List Topic) :
    DState × List Ev × Except Err Unit :=
  let b := runHook1 "onBeforeUnsubscribe" hk.onBeforeUnsubscribe ts
  match b.2 with
  | .error e => (st, b.1, .error e)
  | .ok _ =>
    let effEvs := if st.wsConn.isSome && st.connected then [Ev.wsSend (WsMsg.unsub ts)] else []
    let a := runHook1 "onAfterUnsubscribe" hk.onAfterUnsubscribe ts
    (st, b.1 ++ effEvs ++ a.1, a.2)

/-- `DefaultSignalingAdapter.publish`: the before hook may substitute
the pair to publish; the frame is sent only when a websocket exists and
is connected; the after hook receives the possibly substituted pair. -/
def dPublish (hk : Hooks) (st : DState) (t : Topic) (d : Data) :
    DState × List Ev × Except Err Unit :=
  let b := runBeforePublish hk.onBeforePublish t d
  match b.2 with
  | .error e => (st, b.1, .error e)
  | .ok (t', d') =>
    let effEvs := if st.wsConn.isSome && st.connected then [Ev.wsSend (WsMsg.pub t' d')] else []
    let a := runHookPub "onAfterPublish" hk.onAfterPublish t' d'
    (st, b.1 ++ effEvs ++ a.1, a.2)

/-- Set-style insertion used by the Echo adapter's channel and readiness
sets. -/
def insertT (l : List Topic) (t : Topic) : List Topic :=
  if t ∈ l then l else l ++ [t]

/-- Removal of a topic from a channel or readiness set. -/
def removeT : List Topic → Topic → List Topic
  | [], _ => []
  | x :: rest, t => if x = t then removeT rest t else x :: removeT rest t

/-- Lookup in the per-topic message queue. -/
def qLookup : List (Topic × List Data) → Topic → Option (List Data)
  | [], _ => none
  | (k, v) :: rest, t => if k = t then some v else qLookup rest t

/-- Appends a message to a topic's queue, creating the queue when the
topic has none yet. -/
def qPush : List (Topic × List Data) → Topic → Data → List (Topic × List Data)
  | [], t, d => [(t, [d])]
  | (k, v) :: rest, t, d =>
    if k = t then (k, v ++ [d]) :: rest else (k, v) :: qPush rest t d

/-- Deletes a topic's queue. -/
def qRemove : List (Topic × List Data) → Topic → List (Topic × List Data)
  | [], _ => []
  | (k, v) :: rest, t => if k = t then qRemove rest t else (k, v) :: qRemove rest t

/-- State of a `LaravelEchoAdapter`: whether an Echo instance was
supplied, the subscribed channel set (keys of `channels`), the set of
acknowledged topics (`readyChannels`), the per-topic message queue, and
the two connection flags. -/
structure EState where
  hasEcho : Bool
  channels : List Topic
  readyChannels : List Topic
  messageQueue : List (Topic × List Data)
  shouldConnect : Bool
  connected : Bool
deriving DecidableEq

/-- A freshly constructed `LaravelEchoAdapter`. -/
def eInit (hasEcho : Bool) : EState := ⟨hasEcho, [], [], [], false, false⟩

/-- The Echo channel name for a topic (`_getChannelName`). -/
def channelName (t : Topic) : String := "y-webrtc." ++ t

/-- `LaravelEchoAdapter.connect`: marks the adapter connected and emits
the connect event; hooks wrap the operation as in the default adapter. -/
def eConnect (hk : Hooks) (st : EState) (u : String) : EState × List Ev × Except Err Unit :=
  let b := runHook1 "onBeforeConnect" hk.onBeforeConnect u
  match b.2 with
  | .error e => (st, b.1 ++ connErrEvs hk, .error e)
  | .ok _ =>
    let st1 : EState :=
      ⟨st.hasEcho, st.channels, st.readyChannels, st.messageQueue, true, true⟩
    let a := runHook1 "onAfterConnect" hk.onAfterConnect u
    match a.2 with
    | .error e => (st1, b.1 ++ [Ev.emitEv "connect"] ++ a.1 ++ connErrEvs hk, .error e)
    | .ok _ => (st1, b.1 ++ [Ev.emitEv "connect"] ++ a.1, .ok ())

/-- `LaravelEchoAdapter.disconnect`: leaves every channel, clears the
channel set, the readiness set and the message queue, clears both flags
and emits the disconnect event; hook failures run `onDisconnectError`
and re-raise. -/
def eDisconnect (hk : Hooks) (st : EState) : EState × List Ev × Except Err Unit :=
  let b := runHook0 "onBeforeDisconnect" hk.onBeforeDisconnect
  match b.2 with
  | .error e => (st, b.1 ++ discErrEvs hk, .error e)
  | .ok _ =>
    let effEvs := st.channels.map (fun t => Ev.leave (channelName t))
    let st1 : EState := ⟨st.hasEcho, [], [], [], false, false⟩
    let a := runHook0 "onAfterDisconnect" hk.onAfterDisconnect
    match a.2 with
    | .error e =>
      (st1, b.1 ++ effEvs ++ [Ev.emitEv "disconnect"] ++ a.1 ++ discErrEvs hk, .error e)
    | .ok _ => (st1, b.1 ++ effEvs ++ [Ev.emitEv "disconnect"] ++ a.1, .ok ())

/-- `LaravelEchoAdapter.subscribe`: when the adapter should connect and
has an Echo instance, every listed topic not yet subscribed is added to
the channel set (`_doSubscribe`); the after hook runs in every case,
including the early return. -/
def eSubscribe (hk : Hooks) (st : EState) (ts : List Topic) :
    EState × List Ev × Except Err Unit :=
  let b := runHook1 "onBeforeSubscribe" hk.onBeforeSubscribe ts
  match b.2 with
  | .error e => (st, b.1, .error e)
  | .ok _ =>
    if st.shouldConnect && st.hasEcho then
      let st1 : EState := ⟨st.hasEcho, ts.foldl insertT st.channels,
        st.readyChannels, st.messageQueue, st.shouldConnect, st.connected⟩
      let a := runHook1 "onAfterSubscribe" hk.onAfterSubscribe ts
      (st1, b.1 ++ a.1, a.2)
    else
      let a := runHook1 "onAfterSubscribe" hk.onAfterSubscribe ts
      (st, b.1 ++ a.1, a.2)

/-- `LaravelEchoAdapter._doUnsubscribe` for one topic: when the topic is
subscribed, leaves its channel and removes it from the channel set, the
readiness set and the message queue. -/
def eDoUnsub (st : EState) (t : Topic) : EState × List Ev :=
  if t ∈ st.channels then
    (⟨st.hasEcho, removeT st.channels t, removeT st.readyChannels t,
      qRemove st.messageQueue t, st.shouldConnect, st.connected⟩,
     [Ev.leave (channelName t)])
  else (st, [])

/-- The unsubscribe loop over a topic list. -/
def eUnsubFold (st : EState) : List Topic → EState × List Ev
  | [] => (st, [])
  | t :: ts =>
    let r := eDoUnsub st t
    let rest := eUnsubFold r.1 ts
    (rest.1, r.2 ++ rest.2)

/-- `LaravelEchoAdapter.unsubscribe`. -/
def eUnsubscribe (hk : Hooks) (st : EState) (ts : List Topic) :
    EState × List Ev × Except Err Unit :=
  let b := runHook1 "onBeforeUnsubscribe" hk.onBeforeUnsubscribe ts
  match b.2 with
  | .error e => (st, b.1, .error e)
  | .ok _ =>
    let r := eUnsubFold st ts
    let a := runHook1 "onAfterUnsubscribe" hk.onAfterUnsubscribe ts
    (r.1, b.1 ++ r.2 ++ a.1, a.2)

/-- `LaravelEchoAdapter._doPublish`: nothing happens without a channel
for the topic; a ready topic is whispered to at once; otherwise the
message is appended to the topic's queue. -/
def eDoPublish (st : EState) (t : Topic) (d : Data) : EState × List Ev :=
  if t ∈ st.channels then
    if t ∈ st.readyChannels then (st, [Ev.whisper t d])
    else
      (⟨st.hasEcho, st.channels, st.readyChannels, qPush st.messageQueue t d,
        st.shouldConnect, st.connected⟩, [])
  else (st, [])

/-- `LaravelEchoAdapter.publish`: the before hook may substitute the
pair, then `_doPublish`, then the after hook with the possibly
substituted pair.  There is no connectivity guard on this path. -/
def ePublish (hk : Hooks) (st : EState) (t : Topic) (d : Data) :
    EState × List Ev × Except Err Unit :=
  let b := runBeforePublish hk.onBeforePublish t d
  match b.2 with
  | .error e => (st, b.1, .error e)
  | .ok (t', d') =>
    let r := eDoPublish st t' d'
    let a := runHookPub "onAfterPublish" hk.onAfterPublish t' d'
    (r.1, b.1 ++ r.2 ++ a.1, a.2)

/-- The `channel.subscribed` acknowledgement callback for a topic: marks
the topic ready, whispers every queued message in queue order and drops
the topic's queue.  The callback belongs to a live channel, so it only
fires for subscribed topics. -/
def eChannelReady (st : EState) (t : Topic) : EState × List Ev :=
  if t ∈ st.channels then
    (⟨st.hasEcho, st.channels, insertT st.readyChannels t,
      qRemove st.messageQueue t, st.shouldConnect, st.connected⟩,
     ((qLookup st.messageQueue t).getD []).map (fun d => Ev.whisper t d))
  else (st, [])


/-! ### The adapter factory -/
/-- An adapter value as returned by the factory. -/
inductive AdapterInst where
  | defaultAdapter (hooks : Hooks)
  | echoAdapter (hooks : Hooks)

/-- The factory's argument: an existing adapter instance, a url string,
a configuration object (with its optional `type` string, whether a
truthy `echo` field is present, and its optional hook table), or any
other non-object value, which falls through to the default adapter. -/
inductive AConfig where
  | inst (a : AdapterInst)
  | urlStr (s : String)
  | obj (ty : Option String) (echoPresent : Bool) (hooks : Option Hooks)
  | otherCfg

/-- `createSignalingAdapter`: passes an existing instance through,
builds a default adapter from a string, and from an object builds the
echo adapter when `type` is `'echo'` — failing when no Echo instance was
supplied — and the default adapter otherwise. -/
def createSignalingAdapter : AConfig → Except Err AdapterInst
  | .inst a => .ok a
  | .urlStr _ => .ok (.defaultAdapter noHooks)
  | .obj ty echoPresent hks =>
    if ty = some "echo" then
      if echoPresent then .ok (.echoAdapter (hks.getD noHooks))
      else .error .configErr
    else .ok (.defaultAdapter (hks.getD noHooks))
  | .otherCfg => .ok (.defaultAdapter noHooks)


/-! ### C4: onBeforePublish substitution -/
/-- The same hook table with the `onBeforePublish` hook removed. -/
def noBefore (hk : Hooks) : Hooks :=
  ⟨hk.onBeforeConnect, hk.onAfterConnect, hk.onBeforeDisconnect, hk.onAfterDisconnect,
   hk.onBeforeSubscribe, hk.onAfterSubscribe, hk.onBeforeUnsubscribe, hk.onAfterUnsubscribe,
   none, hk.onAfterPublish, hk.onConnectError, hk.onDisconnectError⟩

/-- The concrete substituting hook used as the C4 witness. -/
def subHookW : Topic → Data → Except Err (Option (Topic × Data)) :=
  fun _ _ => Except.ok (some ("b", 9))

/-- A hook table holding only the concrete substituting hook. -/
def hkSubW : Hooks :=
  ⟨none, none, none, none, none, none, none, none, some subHookW, none, false, false⟩

/-! ### C3: hook ordering and error contract of connect and disconnect -/
/-- Applies an optional one-argument hook the way `_callHook` does: an
absent hook succeeds. -/
def happ1 {α : Type} (h : Option (α → Except Err Unit)) (a : α) : Except Err Unit :=
  match h with
  | none => .ok ()
  | some f => f a

/-- Applies an optional argument-free hook. -/
def happ0 (h : Option (Except Err Unit)) : Except Err Unit :=
  h.getD (.ok ())

/-- An `onAfterConnect` hook that fails. -/
def afterFailHook : String → Except Err Unit := fun _ => Except.error (Err.hookFail 7)

/-- A hook table whose only awaited hook is the failing
`onAfterConnect`, with an `onConnectError` observer installed. -/
def hkAfterFail : Hooks :=
  ⟨none, some afterFailHook, none, none, none, none, none, none, none, none, true, false⟩

/-- An `onBeforeConnect` hook that fails. -/
def beforeFailHook : String → Except Err Unit := fun _ => Except.error (Err.hookFail 3)

/-- A hook table with a failing `onBeforeConnect` hook and an
`onConnectError` observer. -/
def hkBeforeFail : Hooks :=
  ⟨some beforeFailHook, none, none, none, none, none, none, none, none, none, true, false⟩

/-- A run of `_doPublish` calls for one topic, in submission order. -/
def pubSeq (st : EState) (t : Topic) : List Data → EState
  | [] => st
  | d :: ds => pubSeq (eDoPublish st t d).1 t ds

/-- The queue invariant of the Echo adapter: every topic with a queue
entry is subscribed and not yet acknowledged. -/
def QInv (st : EState) : Prop :=
  ∀ u vs, (u, vs) ∈ st.messageQueue → u ∈ st.channels ∧ u ∉ st.readyChannels

/-- The externally observable operations of one Echo adapter. -/
inductive EOp where
  | connOp (u : String)
  | subOp (ts : List Topic)
  | unsubOp (ts : List Topic)
  | pubOp (t : Topic) (d : Data)
  | discOp
  | readyOp (t : Topic)

/-- One step of the Echo adapter: the state reached by the operation. -/
def eApply (hk : Hooks) (st : EState) : EOp → EState
  | .connOp u => (eConnect hk st u).1
  | .subOp ts => (eSubscribe hk st ts).1
  | .unsubOp ts => (eUnsubscribe hk st ts).1
  | .pubOp t d => (ePublish hk st t d).1
  | .discOp => (eDisconnect hk st).1
  | .readyOp t => (eChannelReady st t).1

/-! ## Theorems -/

/-! ### Lemmas about payload slices -/
theorem sliceAt_zero (m : Bytes) (L : Nat) : sliceAt m L 0 = m.take L := by
  simp [sliceAt]

theorem sliceAt_succ (m : Bytes) (L i : Nat) :
    sliceAt m L (i + 1) = sliceAt (m.drop L) L i := by
  simp [sliceAt, List.drop_drop, Nat.succ_mul, Nat.add_comm]

theorem foldr_slices (L : Nat) :
    ∀ (t : Nat) (m : Bytes), m.length ≤ t * L →
      ((List.range t).map (fun i => sliceAt m L i)).foldr (· ++ ·) [] = m := by
  intro t
  induction t with
  | zero =>
    intro m hm
    have hnil : m = [] := List.length_eq_zero.mp (by omega)
    simp [hnil]
  | succ t ih =>
    intro m hm
    rw [List.range_succ_eq_map, List.map_cons, List.map_map, List.foldr_cons]
    have hcong : (List.range t).map ((fun i => sliceAt m L i) ∘ Nat.succ)
        = (List.range t).map (fun i => sliceAt (m.drop L) L i) :=
      List.map_congr_left (fun a _ => sliceAt_succ m L a)
    have hdlen : (m.drop L).length ≤ t * L := by
      have h1 := List.length_drop L m
      have h2 : (t + 1) * L = t * L + L := by ring
      omega
    rw [hcong, ih (m.drop L) hdlen, sliceAt_zero, List.take_append_drop]


/-! ### Lemmas about slot arrays -/
theorem set_fillSlot (v : Bytes) :
    ∀ (xs : List (Option Bytes)) (r : Nat),
      (xs ++ List.replicate (r + 1) (none : Option Bytes)).set xs.length (some v)
      = xs ++ some v :: List.replicate r none := by
  intro xs
  induction xs with
  | nil => intro r; simp [List.replicate_succ]
  | cons x xs ih => intro r; simp [List.set_cons_succ, ih]

theorem allSome_pending (xs : List (Option Bytes)) (r : Nat) (hr : 0 < r) :
    ((xs ++ List.replicate r (none : Option Bytes)).all Option.isSome) = false := by
  cases r with
  | zero => omega
  | succ r' => simp [List.all_append, List.replicate_succ]

theorem allSome_mapSome (xs : List Bytes) : ((xs.map some).all Option.isSome) = true := by
  induction xs with
  | nil => rfl
  | cons x xs ih => simp [ih]

theorem joinSlots_mapSome (xs : List Bytes) :
    joinSlots (xs.map some) = xs.foldr (· ++ ·) [] := by
  induction xs with
  | nil => rfl
  | cons x xs ih =>
    simp only [joinSlots, List.map_cons, List.foldr_cons, Option.getD_some] at ih ⊢
    rw [ih]

theorem slotsUpTo_zero (m : Bytes) (L t : Nat) :
    slotsUpTo m L t 0 = List.replicate t none := by
  simp [slotsUpTo]

theorem slotsUpTo_set (m : Bytes) (L t k : Nat) (hk : k < t) :
    (slotsUpTo m L t k).set k (some (sliceAt m L k)) = slotsUpTo m L t (k + 1) := by
  have hlen : ((List.range k).map (fun i => some (sliceAt m L i))).length = k := by
    simp
  have hr : t - k = (t - (k + 1)) + 1 := by omega
  calc (slotsUpTo m L t k).set k (some (sliceAt m L k))
      = (((List.range k).map (fun i => some (sliceAt m L i))) ++
          List.replicate ((t - (k + 1)) + 1) none).set
          ((List.range k).map (fun i => some (sliceAt m L i))).length
          (some (sliceAt m L k)) := by rw [slotsUpTo, hr, hlen]
    _ = ((List.range k).map (fun i => some (sliceAt m L i))) ++
          some (sliceAt m L k) :: List.replicate (t - (k + 1)) none :=
        set_fillSlot _ _ _
    _ = slotsUpTo m L t (k + 1) := by
        rw [slotsUpTo, List.range_succ, List.map_append]
        simp

theorem slotsUpTo_full (m : Bytes) (L t : Nat) :
    slotsUpTo m L t t = ((List.range t).map (fun i => sliceAt m L i)).map some := by
  simp [slotsUpTo, List.map_map]


/-! ### Computation lemmas for single reassembly steps -/
theorem alookup_single (k : BufKey) (v : List (Option Bytes)) :
    alookup [(k, v)] k = some v := by
  simp [alookup]

theorem aset_single (k : BufKey) (v w : List (Option Bytes)) :
    aset [(k, v)] k w = [(k, w)] := by
  simp [aset]

theorem aremove_single (k : BufKey) (v : List (Option Bytes)) :
    aremove [(k, v)] k = [] := by
  simp [aremove]

theorem reassemble_pending (bufs : List (BufKey × List (Option Bytes)))
    (tombs : List BufKey) (pid : String) (cid idx total : Nat) (p : Bytes)
    (hmem : (pid, cid) ∉ tombs)
    (hall : (((alookup bufs (pid, cid)).getD (List.replicate total none)).set idx
      (some p)).all Option.isSome = false) :
    reassembleChunk ⟨bufs, tombs⟩ pid (Frame.chunk cid idx total p) =
      (⟨aset bufs (pid, cid)
          (((alookup bufs (pid, cid)).getD (List.replicate total none)).set idx (some p)),
        tombs⟩, none) := by
  simp [reassembleChunk, hmem, hall]

theorem reassemble_complete (bufs : List (BufKey × List (Option Bytes)))
    (tombs : List BufKey) (pid : String) (cid idx total : Nat) (p : Bytes)
    (hmem : (pid, cid) ∉ tombs)
    (hall : (((alookup bufs (pid, cid)).getD (List.replicate total none)).set idx
      (some p)).all Option.isSome = true) :
    reassembleChunk ⟨bufs, tombs⟩ pid (Frame.chunk cid idx total p) =
      (⟨aremove bufs (pid, cid), (pid, cid) :: tombs⟩,
       some (joinSlots
         (((alookup bufs (pid, cid)).getD (List.replicate total none)).set idx (some p)))) := by
  simp [reassembleChunk, hmem, hall]


/-! ### The feeding induction for the round trip -/
theorem feed_aux (m : Bytes) (L t : Nat) (pid : String) (cid : Nat)
    (hlen : m.length ≤ t * L) :
    ∀ (n k : Nat), k + n = t → 1 ≤ k → 1 ≤ n →
      feedFrames ⟨[((pid, cid), slotsUpTo m L t k)], []⟩ pid
        ((List.range' k n).map (fun i => Frame.chunk cid i t (sliceAt m L i)))
      = (⟨[], [(pid, cid)]⟩, some m) := by
  intro n
  induction n with
  | zero => intro k hkt hk hn; omega
  | succ n' ih =>
    intro k hkt hk _
    have hkt' : k < t := by omega
    have hstep : ((alookup [((pid, cid), slotsUpTo m L t k)] (pid, cid)).getD
        (List.replicate t none)).set k (some (sliceAt m L k)) = slotsUpTo m L t (k + 1) := by
      rw [alookup_single, Option.getD_some]
      exact slotsUpTo_set m L t k hkt'
    cases n' with
    | zero =>
      have hk1 : k + 1 = t := by omega
      rw [List.range'_succ, List.range'_zero, List.map_cons, List.map_nil]
      show reassembleChunk ⟨[((pid, cid), slotsUpTo m L t k)], []⟩ pid
        (Frame.chunk cid k t (sliceAt m L k)) = (⟨[], [(pid, cid)]⟩, some m)
      have hall : (((alookup [((pid, cid), slotsUpTo m L t k)] (pid, cid)).getD
          (List.replicate t none)).set k (some (sliceAt m L k))).all Option.isSome = true := by
        rw [hstep, hk1, slotsUpTo_full]
        exact allSome_mapSome _
      rw [reassemble_complete _ _ pid cid k t _ (List.not_mem_nil _) hall,
        aremove_single, hstep, hk1, slotsUpTo_full, joinSlots_mapSome,
        foldr_slices L t m hlen]
    | succ n'' =>
      rw [List.range'_succ, List.map_cons, List.range'_succ, List.map_cons]
      show feedFrames (reassembleChunk ⟨[((pid, cid), slotsUpTo m L t k)], []⟩ pid
          (Frame.chunk cid k t (sliceAt m L k))).1 pid
          (Frame.chunk cid (k + 1) t (sliceAt m L (k + 1)) ::
            (List.range' (k + 2) n'').map (fun i => Frame.chunk cid i t (sliceAt m L i)))
        = (⟨[], [(pid, cid)]⟩, some m)
      have hall : (((alookup [((pid, cid), slotsUpTo m L t k)] (pid, cid)).getD
          (List.replicate t none)).set k (some (sliceAt m L k))).all Option.isSome = false := by
        rw [hstep]
        unfold slotsUpTo
        exact allSome_pending _ _ (by omega)
      rw [reassemble_pending _ _ pid cid k t _ (List.not_mem_nil _) hall]
      show feedFrames ⟨aset [((pid, cid), slotsUpTo m L t k)] (pid, cid)
          (((alookup [((pid, cid), slotsUpTo m L t k)] (pid, cid)).getD
            (List.replicate t none)).set k (some (sliceAt m L k))), []⟩ pid
          (Frame.chunk cid (k + 1) t (sliceAt m L (k + 1)) ::
            (List.range' (k + 2) n'').map (fun i => Frame.chunk cid i t (sliceAt m L i)))
        = (⟨[], [(pid, cid)]⟩, some m)
      rw [hstep, aset_single]
      have hih := ih (k + 1) (by omega) (by omega) (by omega)
      rw [List.range'_succ, List.map_cons] at hih
      exact hih


/-! ### Arithmetic facts about the chunk count -/
theorem ceilDiv_succ_eq (n L : Nat) (hL : 0 < L) : ceilDiv (n + 1) L = n / L + 1 := by
  unfold ceilDiv
  have h : n + 1 + L - 1 = n + L := by omega
  rw [h, Nat.add_div_right n hL]

theorem le_ceilDiv_mul (N L : Nat) (hL : 0 < L) : N ≤ ceilDiv N L * L := by
  cases N with
  | zero => simp
  | succ n =>
    rw [ceilDiv_succ_eq n L hL]
    have h1 := Nat.div_add_mod n L
    have h2 := Nat.mod_lt n hL
    have h3 : (n / L + 1) * L = L * (n / L) + L := by ring
    omega

theorem two_le_ceilDiv (N L : Nat) (hL : 0 < L) (h : L < N) : 2 ≤ ceilDiv N L := by
  cases N with
  | zero => omega
  | succ n =>
    rw [ceilDiv_succ_eq n L hL]
    have h1 : 1 ≤ n / L := (Nat.one_le_div_iff hL).mpr (by omega)
    omega

theorem createChunks_large (m : Bytes) (L cid : Nat) (h : ¬ m.length ≤ L) :
    createChunks m L cid = (List.range (ceilDiv m.length L)).map
      (fun i => Frame.chunk cid i (ceilDiv m.length L) (sliceAt m L i)) := by
  simp only [createChunks, if_neg h]
  rfl

/-- C1.  Chunk round-trip: for every byte string and every positive
threshold, fragmenting the payload and feeding the resulting frames in
original order to the reassembler under a single peer id yields exactly
the original payload, the single-Plain-frame case included. -/
theorem chunk_roundtrip (m : Bytes) (L cid : Nat) (pid : String) (hL : 0 < L) :
    (feedFrames chunkInit pid (createChunks m L cid)).2 = some m := by
  show (feedFrames ⟨[], []⟩ pid (createChunks m L cid)).2 = some m
  by_cases hsmall : m.length ≤ L
  · simp [createChunks, hsmall, feedFrames, reassembleChunk]
  · have ht2 : 2 ≤ ceilDiv m.length L := two_le_ceilDiv m.length L hL (by omega)
    have hlen : m.length ≤ ceilDiv m.length L * L := le_ceilDiv_mul m.length L hL
    rw [createChunks_large m L cid hsmall]
    obtain ⟨t2, ht⟩ : ∃ t2, ceilDiv m.length L = t2 + 2 :=
      ⟨ceilDiv m.length L - 2, by omega⟩
    rw [ht] at hlen ⊢
    rw [List.range_eq_range', List.range'_succ, List.map_cons,
      List.range'_succ, List.map_cons]
    show (feedFrames (reassembleChunk ⟨[], []⟩ pid
        (Frame.chunk cid 0 (t2 + 2) (sliceAt m L 0))).1 pid
        (Frame.chunk cid (0 + 1) (t2 + 2) (sliceAt m L (0 + 1)) ::
          (List.range' (0 + 1 + 1) t2).map
            (fun i => Frame.chunk cid i (t2 + 2) (sliceAt m L i)))).2 = some m
    have hstep0 : ((alookup [] (pid, cid)).getD
        (List.replicate (t2 + 2) none)).set 0 (some (sliceAt m L 0))
        = slotsUpTo m L (t2 + 2) 1 := by
      show ((none : Option (List (Option Bytes))).getD
        (List.replicate (t2 + 2) none)).set 0 (some (sliceAt m L 0)) = _
      rw [Option.getD_none, ← slotsUpTo_zero m L (t2 + 2)]
      exact slotsUpTo_set m L (t2 + 2) 0 (by omega)
    have hall0 : (((alookup [] (pid, cid)).getD
        (List.replicate (t2 + 2) none)).set 0 (some (sliceAt m L 0))).all
        Option.isSome = false := by
      rw [hstep0]
      unfold slotsUpTo
      exact allSome_pending _ _ (by omega)
    rw [reassemble_pending [] [] pid cid 0 (t2 + 2) _ (List.not_mem_nil _) hall0]
    show (feedFrames ⟨aset [] (pid, cid)
        (((alookup [] (pid, cid)).getD
          (List.replicate (t2 + 2) none)).set 0 (some (sliceAt m L 0))), []⟩ pid
        (Frame.chunk cid (0 + 1) (t2 + 2) (sliceAt m L (0 + 1)) ::
          (List.range' (0 + 1 + 1) t2).map
            (fun i => Frame.chunk cid i (t2 + 2) (sliceAt m L i)))).2 = some m
    rw [hstep0]
    have hih := feed_aux m L (t2 + 2) pid cid hlen (t2 + 1) 1 (by omega)
      (by omega) (by omega)
    rw [List.range'_succ, List.map_cons] at hih
    show (feedFrames ⟨[((pid, cid), slotsUpTo m L (t2 + 2) 1)], []⟩ pid
        (Frame.chunk cid (0 + 1) (t2 + 2) (sliceAt m L (0 + 1)) ::
          (List.range' (0 + 1 + 1) t2).map
            (fun i => Frame.chunk cid i (t2 + 2) (sliceAt m L i)))).2 = some m
    rw [show (0 + 1 : Nat) = 1 from rfl, show (0 + 1 + 1 : Nat) = 1 + 1 from rfl, hih]

/-- Witness for the round-trip theorem at a concrete input: a payload of
five bytes with threshold two (three chunk frames). -/
theorem chunk_roundtrip_witness :
    0 < 2 ∧ (feedFrames chunkInit "p" (createChunks [1, 2, 3, 4, 5] 2 9)).2
      = some [1, 2, 3, 4, 5] :=
  ⟨by decide, chunk_roundtrip [1, 2, 3, 4, 5] 2 9 "p" (by decide)⟩

theorem purgeBufs_mem : ∀ (bufs : List (BufKey × List (Option Bytes)))
    (pid : String) (cid : Nat),
    (alookup bufs (pid, cid)).isSome → (pid, cid) ∈ (purgeBufs bufs pid).2 := by
  intro bufs
  induction bufs with
  | nil => intro pid cid h; simp [alookup] at h
  | cons e rest ih =>
    intro pid cid h
    obtain ⟨k, v⟩ := e
    by_cases hk : k = (pid, cid)
    · subst hk
      simp [purgeBufs]
    · rw [alookup, if_neg hk] at h
      have hmem := ih pid cid h
      rw [purgeBufs]
      by_cases hp : k.1 = pid
      · simp only [if_pos hp]
        exact List.mem_cons_of_mem _ hmem
      · simp only [if_neg hp]
        exact hmem

/-- C2.  Stale-chunk handling: a chunk frame whose key was already
deleted (its key is tombstoned) is ignored: the call returns incomplete,
raises nothing, and the state, in particular the buffer table, is left
unchanged.  Moreover both deletion paths do tombstone the key: purging a
peer tombstones every key that had a live buffer for that peer, and a
completed reassembly tombstones its own key. -/
theorem stale_chunk_ignored :
    (∀ (st : ChunkState) (pid : String) (cid idx total : Nat) (p : Bytes),
      (pid, cid) ∈ st.tombs →
      reassembleChunk st pid (Frame.chunk cid idx total p) = (st, none))
    ∧ (∀ (st : ChunkState) (pid : String) (cid : Nat),
      (alookup st.buffers (pid, cid)).isSome →
      (pid, cid) ∈ (purgePeer st pid).tombs)
    ∧ (∀ (st : ChunkState) (pid : String) (cid idx total : Nat) (p : Bytes)
        (st' : ChunkState) (out : Bytes),
      reassembleChunk st pid (Frame.chunk cid idx total p) = (st', some out) →
      (pid, cid) ∈ st'.tombs) := by
  refine ⟨?_, ?_, ?_⟩
  · intro st pid cid idx total p hmem
    simp [reassembleChunk, hmem]
  · intro st pid cid h
    exact List.mem_append_left _ (purgeBufs_mem st.buffers pid cid h)
  · intro st pid cid idx total p st' out h
    by_cases hmem : (pid, cid) ∈ st.tombs
    · simp [reassembleChunk, hmem] at h
    · simp only [reassembleChunk, if_neg hmem] at h
      by_cases hall : (((alookup st.buffers (pid, cid)).getD
          (List.replicate total none)).set idx (some p)).all Option.isSome
      · rw [if_pos hall] at h
        injection h with h1 h2
        rw [← h1]
        exact List.mem_cons_self _ _
      · rw [if_neg hall] at h
        injection h with h1 h2
        exact absurd h2 (by simp)

/-- Witness for the stale-chunk theorem: a chunk for an already
tombstoned key is ignored and the state is unchanged. -/
theorem stale_chunk_ignored_witness :
    reassembleChunk ⟨[], [("p", 7)]⟩ "p" (Frame.chunk 7 0 2 [1])
      = (⟨[], [("p", 7)]⟩, none) :=
  stale_chunk_ignored.1 ⟨[], [("p", 7)]⟩ "p" 7 0 2 [1] (List.mem_singleton.mpr rfl)


/-! ### Helper lemmas about hook runners -/
theorem filter_isEffect_runHook0 (n : String) (h : Option (Except Err Unit)) :
    (runHook0 n h).1.filter isEffect = [] := by
  cases h <;> simp [runHook0, isEffect]

theorem filter_isEffect_runHook1 {α : Type} (n : String)
    (h : Option (α → Except Err Unit)) (a : α) :
    (runHook1 n h a).1.filter isEffect = [] := by
  cases h <;> simp [runHook1, isEffect]

theorem filter_isEffect_runHookPub (n : String)
    (h : Option (Topic → Data → Except Err Unit)) (t : Topic) (d : Data) :
    (runHookPub n h t d).1.filter isEffect = [] := by
  cases h <;> simp [runHookPub, isEffect]

theorem filter_isEffect_runBeforePublish
    (h : Option (Topic → Data → Except Err (Option (Topic × Data)))) (t : Topic) (d : Data) :
    (runBeforePublish h t d).1.filter isEffect = [] := by
  unfold runBeforePublish
  rcases h with _ | f
  · simp
  · rcases hft : f t d with e | o
    · simp [hft, isEffect]
    · rcases o with _ | ⟨t', d'⟩ <;> simp [hft, isEffect]

theorem filter_isEffect_connErrEvs (hk : Hooks) :
    (connErrEvs hk).filter isEffect = [] := by
  unfold connErrEvs
  split <;> simp [isEffect]

theorem filter_isEffect_discErrEvs (hk : Hooks) :
    (discErrEvs hk).filter isEffect = [] := by
  unfold discErrEvs
  split <;> simp [isEffect]


/-- C4.  `onBeforePublish` substitution, on both adapters: when the hook
returns a pair with both a topic and a data field, publish behaves
exactly like a hook-free publish of the substituted pair (the effect and
the `onAfterPublish` hook both see the substituted pair), after the
recorded hook invocation; for any other return value of the hook, the
original pair is used unchanged. -/
theorem publish_substitution :
    (∀ (hk : Hooks) (f : Topic → Data → Except Err (Option (Topic × Data)))
        (st : DState) (t : Topic) (d : Data) (t' : Topic) (d' : Data),
      hk.onBeforePublish = some f → f t d = .ok (some (t', d')) →
      dPublish hk st t d =
        ((dPublish (noBefore hk) st t' d').1,
         Ev.hookPub "onBeforePublish" t d :: (dPublish (noBefore hk) st t' d').2.1,
         (dPublish (noBefore hk) st t' d').2.2))
    ∧ (∀ (hk : Hooks) (f : Topic → Data → Except Err (Option (Topic × Data)))
        (st : DState) (t : Topic) (d : Data),
      hk.onBeforePublish = some f → f t d = .ok none →
      dPublish hk st t d =
        ((dPublish (noBefore hk) st t d).1,
         Ev.hookPub "onBeforePublish" t d :: (dPublish (noBefore hk) st t d).2.1,
         (dPublish (noBefore hk) st t d).2.2))
    ∧ (∀ (hk : Hooks) (f : Topic → Data → Except Err (Option (Topic × Data)))
        (st : EState) (t : Topic) (d : Data) (t' : Topic) (d' : Data),
      hk.onBeforePublish = some f → f t d = .ok (some (t', d')) →
      ePublish hk st t d =
        ((ePublish (noBefore hk) st t' d').1,
         Ev.hookPub "onBeforePublish" t d :: (ePublish (noBefore hk) st t' d').2.1,
         (ePublish (noBefore hk) st t' d').2.2))
    ∧ (∀ (hk : Hooks) (f : Topic → Data → Except Err (Option (Topic × Data)))
        (st : EState) (t : Topic) (d : Data),
      hk.onBeforePublish = some f → f t d = .ok none →
      ePublish hk st t d =
        ((ePublish (noBefore hk) st t d).1,
         Ev.hookPub "onBeforePublish" t d :: (ePublish (noBefore hk) st t d).2.1,
         (ePublish (noBefore hk) st t d).2.2)) := by
  refine ⟨?_, ?_, ?_, ?_⟩ <;>
    intro hk f st t d <;>
    first
      | (intro t' d' hf hres
         simp [dPublish, ePublish, runBeforePublish, noBefore, hf, hres])
      | (intro hf hres
         simp [dPublish, ePublish, runBeforePublish, noBefore, hf, hres])

/-- Witness for the substitution theorem at a concrete input. -/
theorem publish_substitution_witness :
    dPublish hkSubW dInit "a" 1 =
      ((dPublish (noBefore hkSubW) dInit "b" 9).1,
       Ev.hookPub "onBeforePublish" "a" 1 :: (dPublish (noBefore hkSubW) dInit "b" 9).2.1,
       (dPublish (noBefore hkSubW) dInit "b" 9).2.2) :=
  publish_substitution.1 hkSubW subHookW dInit "a" 1 "b" 9 rfl rfl


/-! ### C5: the default adapter is a no-op while disconnected -/
/-- C5.  While the default adapter has no websocket or is not connected,
subscribe, unsubscribe and publish change no state, send nothing to the
backend and queue nothing (the default adapter has no queue at all), and
the operation itself raises nothing — the outcome is ok whenever the
optional hooks are absent. -/
theorem default_disconnected_noop (hk : Hooks) (st : DState) (ts : List Topic)
    (t : Topic) (d : Data) (hdis : st.wsConn = none ∨ st.connected = false) :
    ((dSubscribe hk st ts).1 = st
      ∧ (dSubscribe hk st ts).2.1.filter isEffect = []
      ∧ (hk.onBeforeSubscribe = none → hk.onAfterSubscribe = none →
          (dSubscribe hk st ts).2.2 = .ok ()))
    ∧ ((dUnsubscribe hk st ts).1 = st
      ∧ (dUnsubscribe hk st ts).2.1.filter isEffect = []
      ∧ (hk.onBeforeUnsubscribe = none → hk.onAfterUnsubscribe = none →
          (dUnsubscribe hk st ts).2.2 = .ok ()))
    ∧ ((dPublish hk st t d).1 = st
      ∧ (dPublish hk st t d).2.1.filter isEffect = []
      ∧ (hk.onBeforePublish = none → hk.onAfterPublish = none →
          (dPublish hk st t d).2.2 = .ok ())) := by
  have heff : (st.wsConn.isSome && st.connected) = false := by
    rcases hdis with h | h <;> simp [h]
  refine ⟨⟨?_, ?_, ?_⟩, ⟨?_, ?_, ?_⟩, ⟨?_, ?_, ?_⟩⟩
  · rcases hb : (runHook1 "onBeforeSubscribe" hk.onBeforeSubscribe ts).2 with e | u <;>
      simp [dSubscribe, hb]
  · rcases hb : (runHook1 "onBeforeSubscribe" hk.onBeforeSubscribe ts).2 with e | u <;>
      simp [dSubscribe, hb, heff, List.filter_append, filter_isEffect_runHook1]
  · intro h1 h2
    simp [dSubscribe, runHook1, h1, h2]
  · rcases hb : (runHook1 "onBeforeUnsubscribe" hk.onBeforeUnsubscribe ts).2 with e | u <;>
      simp [dUnsubscribe, hb]
  · rcases hb : (runHook1 "onBeforeUnsubscribe" hk.onBeforeUnsubscribe ts).2 with e | u <;>
      simp [dUnsubscribe, hb, heff, List.filter_append, filter_isEffect_runHook1]
  · intro h1 h2
    simp [dUnsubscribe, runHook1, h1, h2]
  · rcases hb : (runBeforePublish hk.onBeforePublish t d).2 with e | ⟨t', d'⟩ <;>
      simp [dPublish, hb]
  · rcases hb : (runBeforePublish hk.onBeforePublish t d).2 with e | ⟨t', d'⟩ <;>
      simp [dPublish, hb, heff, List.filter_append, filter_isEffect_runBeforePublish,
        filter_isEffect_runHookPub]
  · intro h1 h2
    simp [dPublish, runBeforePublish, runHookPub, h1, h2]

/-- Witness for the disconnected no-op theorem at a freshly constructed
adapter with no hooks: publish sends nothing. -/
theorem default_disconnected_noop_witness :
    (dPublish noHooks dInit "a" 3).2.1.filter isEffect = []
      ∧ (dPublish noHooks dInit "a" 3).2.2 = .ok () :=
  ⟨((default_disconnected_noop noHooks dInit ["r"] "a" 3 (Or.inl rfl)).2.2).2.1,
   ((default_disconnected_noop noHooks dInit ["r"] "a" 3 (Or.inl rfl)).2.2).2.2 rfl rfl⟩


/-! ### C7 and C9: the adapter factory -/
/-- C7.  Fail-fast: the factory raises exactly when the configuration
object selects the echo backend without supplying an Echo instance;
every other config shape yields an adapter without raising. -/
theorem factory_fail_fast (c : AConfig) :
    (∃ e, createSignalingAdapter c = .error e) ↔
      (∃ hks, c = AConfig.obj (some "echo") false hks) := by
  cases c with
  | inst a => simp [createSignalingAdapter]
  | urlStr s => simp [createSignalingAdapter]
  | obj ty ep hks =>
    by_cases hty : ty = some "echo"
    · subst hty
      cases ep <;> simp [createSignalingAdapter]
    · simp [createSignalingAdapter, hty]
  | otherCfg => simp [createSignalingAdapter]

/-- C9.  Factory pass-through: an existing adapter instance is returned
unchanged; a string yields a fresh hook-free default adapter; an object
whose type is not echo yields a default adapter with the object's hooks;
and every input yields either the configuration error or an adapter —
never nothing. -/
theorem factory_passthrough :
    (∀ a, createSignalingAdapter (AConfig.inst a) = .ok a)
    ∧ (∀ s, createSignalingAdapter (AConfig.urlStr s)
        = .ok (AdapterInst.defaultAdapter noHooks))
    ∧ (∀ (ty : Option String) (ep : Bool) (hks : Option Hooks), ty ≠ some "echo" →
        createSignalingAdapter (AConfig.obj ty ep hks)
          = .ok (AdapterInst.defaultAdapter (hks.getD noHooks)))
    ∧ (∀ c, createSignalingAdapter c = .error Err.configErr
        ∨ ∃ a, createSignalingAdapter c = .ok a) := by
  refine ⟨fun a => rfl, fun s => rfl, ?_, ?_⟩
  · intro ty ep hks hty
    simp [createSignalingAdapter, hty]
  · intro c
    cases c with
    | inst a => exact Or.inr ⟨a, rfl⟩
    | urlStr s => exact Or.inr ⟨_, rfl⟩
    | obj ty ep hks =>
      by_cases hty : ty = some "echo"
      · subst hty
        cases ep
        · exact Or.inl rfl
        · exact Or.inr ⟨_, rfl⟩
      · exact Or.inr ⟨AdapterInst.defaultAdapter (hks.getD noHooks),
          by simp [createSignalingAdapter, hty]⟩
    | otherCfg => exact Or.inr ⟨_, rfl⟩

/-- Witness for the factory pass-through theorem: a config object with
type `'default'` yields a default adapter with its hooks. -/
theorem factory_passthrough_witness :
    (some "default" ≠ some "echo")
    ∧ createSignalingAdapter (AConfig.obj (some "default") false none)
        = .ok (AdapterInst.defaultAdapter ((none : Option Hooks).getD noHooks)) :=
  ⟨by decide, factory_passthrough.2.2.1 (some "default") false none (by decide)⟩


/-! ### C8: idempotent teardown -/
/-- C8.  Disconnect is idempotent on both adapters: a second disconnect
leaves the adapter state exactly as the first left it, performs no
backend effect, and succeeds whenever the first call succeeded. -/
theorem disconnect_idempotent (hk : Hooks) (st : DState) (est : EState) :
    ((dDisconnect hk (dDisconnect hk st).1).1 = (dDisconnect hk st).1
      ∧ (dDisconnect hk (dDisconnect hk st).1).2.1.filter isEffect = []
      ∧ ((dDisconnect hk st).2.2 = .ok () →
          (dDisconnect hk (dDisconnect hk st).1).2.2 = .ok ()))
    ∧ ((eDisconnect hk (eDisconnect hk est).1).1 = (eDisconnect hk est).1
      ∧ (eDisconnect hk (eDisconnect hk est).1).2.1.filter isEffect = []
      ∧ ((eDisconnect hk est).2.2 = .ok () →
          (eDisconnect hk (eDisconnect hk est).1).2.2 = .ok ())) := by
  constructor
  · rcases hb : hk.onBeforeDisconnect with _ | rb
    · rcases ha : hk.onAfterDisconnect with _ | ra
      · simp [dDisconnect, runHook0, hb, ha, filter_isEffect_discErrEvs,
          List.filter_append, isEffect]
      · rcases ra with e | u <;>
          simp [dDisconnect, runHook0, hb, ha, filter_isEffect_discErrEvs,
            List.filter_append, isEffect]
    · rcases rb with e | u
      · simp [dDisconnect, runHook0, hb, filter_isEffect_discErrEvs,
          List.filter_append, isEffect]
      · rcases ha : hk.onAfterDisconnect with _ | ra
        · simp [dDisconnect, runHook0, hb, ha, filter_isEffect_discErrEvs,
            List.filter_append, isEffect]
        · rcases ra with e | u <;>
            simp [dDisconnect, runHook0, hb, ha, filter_isEffect_discErrEvs,
              List.filter_append, isEffect]
  · rcases hb : hk.onBeforeDisconnect with _ | rb
    · rcases ha : hk.onAfterDisconnect with _ | ra
      · simp [eDisconnect, runHook0, hb, ha, filter_isEffect_discErrEvs,
          List.filter_append, isEffect]
      · rcases ra with e | u <;>
          simp [eDisconnect, runHook0, hb, ha, filter_isEffect_discErrEvs,
            List.filter_append, isEffect]
    · rcases rb with e | u
      · simp [eDisconnect, runHook0, hb, filter_isEffect_discErrEvs,
          List.filter_append, isEffect]
      · rcases ha : hk.onAfterDisconnect with _ | ra
        · simp [eDisconnect, runHook0, hb, ha, filter_isEffect_discErrEvs,
            List.filter_append, isEffect]
        · rcases ra with e | u <;>
            simp [eDisconnect, runHook0, hb, ha, filter_isEffect_discErrEvs,
              List.filter_append, isEffect]

/-- Witness for idempotent teardown: on a connected default adapter and
a subscribed Echo adapter without hooks, the second disconnect succeeds
and changes nothing. -/
theorem disconnect_idempotent_witness :
    (dDisconnect noHooks (dDisconnect noHooks ⟨some "u", true, "u"⟩).1).2.2 = .ok ()
      ∧ (eDisconnect noHooks
          (eDisconnect noHooks ⟨true, ["r"], ["r"], [("r", [1])], true, true⟩).1).1
        = (eDisconnect noHooks ⟨true, ["r"], ["r"], [("r", [1])], true, true⟩).1 :=
  ⟨(disconnect_idempotent noHooks ⟨some "u", true, "u"⟩ (eInit true)).1.2.2 rfl,
   (disconnect_idempotent noHooks dInit ⟨true, ["r"], ["r"], [("r", [1])], true, true⟩).2.1⟩


/-- Counterexample to C3 as stated: with a failing `onAfterConnect`
hook, the connect operation fails, and yet the `onAfterConnect` hook did
run, so the clause that the after hook runs only if the operation did
not fail is false on the code.  The guarantee holds of failures of the
before hook and of the effect, not of failures of the after hook
itself. -/
theorem hook_contract_counterexample :
    (dConnect hkAfterFail dInit "u").2.2 = Except.error (Err.hookFail 7)
    ∧ Ev.hook "onAfterConnect" ∈ (dConnect hkAfterFail dInit "u").2.1 := by
  constructor
  · rfl
  · decide

/-- C3 amended.  For connect and disconnect on the default adapter: the
before hook, when present, is the first thing that runs, before any
effect; if the before hook fails, no effect and no after hook run, the
matching error hook runs and the before hook's failure is re-raised; if
the before hook and the after hook succeed the operation succeeds and
the effect ran; if the after hook itself fails — it has then already
run — the matching error hook runs and that failure is re-raised. -/
theorem hook_contract_amended (hk : Hooks) (st : DState) (u : String) :
    (hk.onBeforeConnect.isSome →
      (dConnect hk st u).2.1.head? = some (Ev.hook "onBeforeConnect"))
    ∧ (∀ e, happ1 hk.onBeforeConnect u = .error e →
        (dConnect hk st u).1 = st
        ∧ (dConnect hk st u).2.1.filter isEffect = []
        ∧ Ev.hook "onAfterConnect" ∉ (dConnect hk st u).2.1
        ∧ (hk.onConnectError = true →
            Ev.hook "onConnectError" ∈ (dConnect hk st u).2.1)
        ∧ (dConnect hk st u).2.2 = .error e)
    ∧ (happ1 hk.onBeforeConnect u = .ok () → happ1 hk.onAfterConnect u = .ok () →
        (dConnect hk st u).2.2 = .ok () ∧ Ev.wsCreate u ∈ (dConnect hk st u).2.1)
    ∧ (∀ e, happ1 hk.onBeforeConnect u = .ok () → happ1 hk.onAfterConnect u = .error e →
        (dConnect hk st u).2.2 = .error e
        ∧ (hk.onConnectError = true →
            Ev.hook "onConnectError" ∈ (dConnect hk st u).2.1))
    ∧ (hk.onBeforeDisconnect.isSome →
        (dDisconnect hk st).2.1.head? = some (Ev.hook "onBeforeDisconnect"))
    ∧ (∀ e, happ0 hk.onBeforeDisconnect = .error e →
        (dDisconnect hk st).1 = st
        ∧ (dDisconnect hk st).2.1.filter isEffect = []
        ∧ Ev.hook "onAfterDisconnect" ∉ (dDisconnect hk st).2.1
        ∧ (hk.onDisconnectError = true →
            Ev.hook "onDisconnectError" ∈ (dDisconnect hk st).2.1)
        ∧ (dDisconnect hk st).2.2 = .error e)
    ∧ (happ0 hk.onBeforeDisconnect = .ok () → happ0 hk.onAfterDisconnect = .ok () →
        (dDisconnect hk st).2.2 = .ok ()
        ∧ (st.wsConn.isSome = true → Ev.wsClose ∈ (dDisconnect hk st).2.1))
    ∧ (∀ e, happ0 hk.onBeforeDisconnect = .ok () → happ0 hk.onAfterDisconnect = .error e →
        (dDisconnect hk st).2.2 = .error e
        ∧ (hk.onDisconnectError = true →
            Ev.hook "onDisconnectError" ∈ (dDisconnect hk st).2.1)) := by
  refine ⟨?_, ?_, ?_, ?_, ?_, ?_, ?_, ?_⟩
  · intro hsome
    rcases hbC : hk.onBeforeConnect with _ | fb
    · rw [hbC] at hsome
      simp at hsome
    · rcases hfb : fb u with e | v
      · simp [dConnect, runHook1, hbC, hfb]
      · simp only [dConnect, runHook1, hbC, hfb]
        split <;> simp
  · intro e he
    rcases hbC : hk.onBeforeConnect with _ | fb
    · simp [happ1, hbC] at he
    · simp only [happ1, hbC] at he
      have hval : dConnect hk st u =
          (st, Ev.hook "onBeforeConnect" :: connErrEvs hk, Except.error e) := by
        simp [dConnect, runHook1, hbC, he]
      rw [hval]
      refine ⟨rfl, ?_, ?_, ?_, rfl⟩
      · simp [List.filter_cons, isEffect, filter_isEffect_connErrEvs]
      · intro hmem
        rcases List.mem_cons.mp hmem with h | h
        · exact absurd h (by decide)
        · unfold connErrEvs at h
          split at h
          · exact absurd (List.mem_singleton.mp h) (by decide)
          · simp at h
      · intro hflag
        simp [connErrEvs, hflag]
  · intro hb ha
    rcases hbC : hk.onBeforeConnect with _ | fb
    · rcases haC : hk.onAfterConnect with _ | fa
      · simp [dConnect, runHook1, hbC, haC]
      · rw [haC] at ha
        simp only [happ1] at ha
        simp [dConnect, runHook1, hbC, haC, ha]
    · rw [hbC] at hb
      simp only [happ1] at hb
      rcases haC : hk.onAfterConnect with _ | fa
      · simp [dConnect, runHook1, hbC, haC, hb]
      · rw [haC] at ha
        simp only [happ1] at ha
        simp [dConnect, runHook1, hbC, haC, hb, ha]
  · intro e hb ha
    rcases haC : hk.onAfterConnect with _ | fa
    · rw [haC] at ha
      simp [happ0, happ1] at ha
    · rw [haC] at ha
      simp only [happ1] at ha
      rcases hbC : hk.onBeforeConnect with _ | fb
      · constructor
        · simp [dConnect, runHook1, hbC, haC, ha]
        · intro hflag
          simp [dConnect, runHook1, hbC, haC, ha, connErrEvs, hflag]
      · rw [hbC] at hb
        simp only [happ1] at hb
        constructor
        · simp [dConnect, runHook1, hbC, haC, ha, hb]
        · intro hflag
          simp [dConnect, runHook1, hbC, haC, ha, hb, connErrEvs, hflag]
  · intro hsome
    rcases hbD : hk.onBeforeDisconnect with _ | rb
    · rw [hbD] at hsome
      simp at hsome
    · rcases rb with e | v
      · simp [dDisconnect, runHook0, hbD]
      · simp only [dDisconnect, runHook0, hbD]
        split <;> simp
  · intro e he
    rcases hbD : hk.onBeforeDisconnect with _ | rb
    · simp [happ0, hbD] at he
    · simp only [happ0, hbD, Option.getD_some] at he
      subst he
      have hval : dDisconnect hk st =
          (st, Ev.hook "onBeforeDisconnect" :: discErrEvs hk, Except.error e) := by
        simp [dDisconnect, runHook0, hbD]
      rw [hval]
      refine ⟨rfl, ?_, ?_, ?_, rfl⟩
      · simp [List.filter_cons, isEffect, filter_isEffect_discErrEvs]
      · intro hmem
        rcases List.mem_cons.mp hmem with h | h
        · exact absurd h (by decide)
        · unfold discErrEvs at h
          split at h
          · exact absurd (List.mem_singleton.mp h) (by decide)
          · simp at h
      · intro hflag
        simp [discErrEvs, hflag]
  · intro hb ha
    rcases hbD : hk.onBeforeDisconnect with _ | rb
    · rcases haD : hk.onAfterDisconnect with _ | ra
      · cases hw : st.wsConn.isSome <;>
          simp [dDisconnect, runHook0, hbD, haD, hw]
      · rw [haD] at ha
        simp only [happ0, Option.getD_some] at ha
        subst ha
        cases hw : st.wsConn.isSome <;>
          simp [dDisconnect, runHook0, hbD, haD, hw]
    · rw [hbD] at hb
      simp only [happ0, Option.getD_some] at hb
      subst hb
      rcases haD : hk.onAfterDisconnect with _ | ra
      · cases hw : st.wsConn.isSome <;>
          simp [dDisconnect, runHook0, hbD, haD, hw]
      · rw [haD] at ha
        simp only [happ0, Option.getD_some] at ha
        subst ha
        cases hw : st.wsConn.isSome <;>
          simp [dDisconnect, runHook0, hbD, haD, hw]
  · intro e hb ha
    rcases haD : hk.onAfterDisconnect with _ | ra
    · rw [haD] at ha
      simp [happ0] at ha
    · rw [haD] at ha
      simp only [happ0, Option.getD_some] at ha
      subst ha
      rcases hbD : hk.onBeforeDisconnect with _ | rb
      · constructor
        · simp [dDisconnect, runHook0, hbD, haD]
        · intro hflag
          simp [dDisconnect, runHook0, hbD, haD, discErrEvs, hflag]
      · rw [hbD] at hb
        simp only [happ0, Option.getD_some] at hb
        subst hb
        constructor
        · simp [dDisconnect, runHook0, hbD, haD]
        · intro hflag
          simp [dDisconnect, runHook0, hbD, haD, discErrEvs, hflag]

/-- Witness for the amended hook-contract theorem: a failing before hook
makes connect re-raise that failure and run the error hook. -/
theorem hook_contract_amended_witness :
    (dConnect hkBeforeFail dInit "u").2.2 = Except.error (Err.hookFail 3)
    ∧ Ev.hook "onConnectError" ∈ (dConnect hkBeforeFail dInit "u").2.1 :=
  ⟨((hook_contract_amended hkBeforeFail dInit "u").2.1 (Err.hookFail 3) rfl).2.2.2.2,
   ((hook_contract_amended hkBeforeFail dInit "u").2.1 (Err.hookFail 3) rfl).2.2.2.1 rfl⟩


/-! ### C6: per-topic queueing and ordered flush on the Echo adapter -/
theorem qLookup_qPush (t : Topic) (d : Data) :
    ∀ (q : List (Topic × List Data)),
      qLookup (qPush q t d) t = some ((qLookup q t).getD [] ++ [d]) := by
  intro q
  induction q with
  | nil => simp [qPush, qLookup]
  | cons e rest ih =>
    obtain ⟨k, v⟩ := e
    by_cases hk : k = t
    · subst hk
      simp [qPush, qLookup]
    · simp [qPush, qLookup, hk, ih]

theorem qLookup_qRemove (t : Topic) :
    ∀ (q : List (Topic × List Data)), qLookup (qRemove q t) t = none := by
  intro q
  induction q with
  | nil => simp [qRemove, qLookup]
  | cons e rest ih =>
    obtain ⟨k, v⟩ := e
    by_cases hk : k = t
    · subst hk
      simp [qRemove, ih]
    · simp [qRemove, qLookup, hk, ih]

theorem mem_insertT_self (l : List Topic) (t : Topic) : t ∈ insertT l t := by
  unfold insertT
  split
  · assumption
  · simp

theorem pubSeq_pending (t : Topic) :
    ∀ (ds : List Data) (st : EState), t ∈ st.channels → t ∉ st.readyChannels →
      pubSeq st t ds = ⟨st.hasEcho, st.channels, st.readyChannels,
        ds.foldl (fun q x => qPush q t x) st.messageQueue,
        st.shouldConnect, st.connected⟩ := by
  intro ds
  induction ds with
  | nil =>
    intro st hc hr
    cases st
    rfl
  | cons d ds ih =>
    intro st hc hr
    have hstep : (eDoPublish st t d).1 = ⟨st.hasEcho, st.channels, st.readyChannels,
        qPush st.messageQueue t d, st.shouldConnect, st.connected⟩ := by
      simp [eDoPublish, hc, hr]
    show pubSeq (eDoPublish st t d).1 t ds = _
    rw [hstep]
    exact ih ⟨st.hasEcho, st.channels, st.readyChannels, qPush st.messageQueue t d,
      st.shouldConnect, st.connected⟩ hc hr

theorem qLookup_foldl_qPush (t : Topic) :
    ∀ (ds : List Data) (q : List (Topic × List Data)),
      (qLookup (ds.foldl (fun acc x => qPush acc t x) q) t).getD []
        = (qLookup q t).getD [] ++ ds := by
  intro ds
  induction ds with
  | nil => intro q; simp
  | cons d ds ih =>
    intro q
    show (qLookup (ds.foldl (fun acc x => qPush acc t x) (qPush q t d)) t).getD [] = _
    rw [ih (qPush q t d), qLookup_qPush]
    simp

/-- C6.  Echo-adapter queueing: a publish for a subscribed but not yet
acknowledged topic queues the message and whispers nothing; a publish
for an acknowledged topic whispers at once and changes nothing; and when
a topic with no prior queue becomes ready after a run of pending
publishes, the flush whispers exactly the submitted messages in
submission order, marks the topic ready and drops its queue. -/
theorem echo_queue_flush (st : EState) (t : Topic) (d : Data) (ds : List Data)
    (hc : t ∈ st.channels) :
    (t ∉ st.readyChannels →
      (eDoPublish st t d).2 = []
      ∧ (eDoPublish st t d).1.messageQueue = qPush st.messageQueue t d)
    ∧ (t ∈ st.readyChannels → eDoPublish st t d = (st, [Ev.whisper t d]))
    ∧ (t ∉ st.readyChannels → qLookup st.messageQueue t = none →
        (eChannelReady (pubSeq st t ds) t).2 = ds.map (fun x => Ev.whisper t x)
        ∧ t ∈ (eChannelReady (pubSeq st t ds) t).1.readyChannels
        ∧ qLookup (eChannelReady (pubSeq st t ds) t).1.messageQueue t = none) := by
  refine ⟨?_, ?_, ?_⟩
  · intro hr
    simp [eDoPublish, hc, hr]
  · intro hr
    simp [eDoPublish, hc, hr]
  · intro hr hq
    rw [pubSeq_pending t ds st hc hr]
    have hq0 : (qLookup st.messageQueue t).getD [] = [] := by rw [hq]; rfl
    have hflush := qLookup_foldl_qPush t ds st.messageQueue
    rw [hq0] at hflush
    refine ⟨?_, ?_, ?_⟩
    · simp only [eChannelReady, hc, if_pos]
      rw [hflush]
      simp
    · simp only [eChannelReady, hc, if_pos]
      exact mem_insertT_self _ _
    · simp only [eChannelReady, hc, if_pos]
      exact qLookup_qRemove t _

/-- Witness for the queueing theorem: two pending publishes flush in
submission order once the topic becomes ready. -/
theorem echo_queue_flush_witness :
    (eChannelReady (pubSeq ⟨true, ["r"], [], [], true, true⟩ "r" [1, 2]) "r").2
      = [Ev.whisper "r" 1, Ev.whisper "r" 2] :=
  ((echo_queue_flush ⟨true, ["r"], [], [], true, true⟩ "r" 5 [1, 2]
      (List.mem_singleton.mpr rfl)).2.2 (List.not_mem_nil _) rfl).1


/-! ### C10: the Echo adapter queue invariant -/
theorem mem_qPush_key (t : Topic) (d : Data) (u : Topic) (vs : List Data) :
    ∀ (q : List (Topic × List Data)), (u, vs) ∈ qPush q t d →
      u = t ∨ ∃ vs', (u, vs') ∈ q := by
  intro q
  induction q with
  | nil =>
    intro h
    simp [qPush] at h
    exact Or.inl h.1
  | cons e rest ih =>
    obtain ⟨k, v⟩ := e
    intro h
    by_cases hk : k = t
    · subst hk
      rw [qPush, if_pos rfl] at h
      rcases List.mem_cons.mp h with h1 | h1
      · injection h1 with hu hv
        exact Or.inl hu
      · exact Or.inr ⟨vs, List.mem_cons_of_mem _ h1⟩
    · rw [qPush, if_neg hk] at h
      rcases List.mem_cons.mp h with h1 | h1
      · exact Or.inr ⟨vs, by rw [h1]; exact List.mem_cons_self _ _⟩
      · rcases ih h1 with h2 | ⟨vs', h2⟩
        · exact Or.inl h2
        · exact Or.inr ⟨vs', List.mem_cons_of_mem _ h2⟩

theorem mem_qRemove (t u : Topic) (vs : List Data) :
    ∀ (q : List (Topic × List Data)), (u, vs) ∈ qRemove q t →
      (u, vs) ∈ q ∧ u ≠ t := by
  intro q
  induction q with
  | nil => intro h; simp [qRemove] at h
  | cons e rest ih =>
    obtain ⟨k, v⟩ := e
    intro h
    by_cases hk : k = t
    · subst hk
      rw [qRemove, if_pos rfl] at h
      obtain ⟨h1, h2⟩ := ih h
      exact ⟨List.mem_cons_of_mem _ h1, h2⟩
    · rw [qRemove, if_neg hk] at h
      rcases List.mem_cons.mp h with h1 | h1
      · refine ⟨List.mem_cons.mpr (Or.inl h1), ?_⟩
        injection h1 with hu hv
        rw [hu]
        exact hk
      · obtain ⟨h2, h3⟩ := ih h1
        exact ⟨List.mem_cons_of_mem _ h2, h3⟩

theorem mem_removeT_iff (u t : Topic) :
    ∀ (l : List Topic), u ∈ removeT l t ↔ (u ∈ l ∧ u ≠ t) := by
  intro l
  induction l with
  | nil => simp [removeT]
  | cons x rest ih =>
    by_cases hx : x = t
    · subst hx
      rw [removeT, if_pos rfl, ih]
      constructor
      · rintro ⟨h1, h2⟩
        exact ⟨List.mem_cons_of_mem _ h1, h2⟩
      · rintro ⟨h1, h2⟩
        rcases List.mem_cons.mp h1 with h3 | h3
        · exact absurd h3 h2
        · exact ⟨h3, h2⟩
    · rw [removeT, if_neg hx]
      constructor
      · intro h
        rcases List.mem_cons.mp h with h1 | h1
        · subst h1
          exact ⟨List.mem_cons_self _ _, hx⟩
        · obtain ⟨h2, h3⟩ := ih.mp h1
          exact ⟨List.mem_cons_of_mem _ h2, h3⟩
      · rintro ⟨h1, h2⟩
        rcases List.mem_cons.mp h1 with h3 | h3
        · subst h3
          exact List.mem_cons_self _ _
        · exact List.mem_cons_of_mem _ (ih.mpr ⟨h3, h2⟩)

theorem mem_insertT (u t : Topic) (l : List Topic) :
    u ∈ insertT l t ↔ (u ∈ l ∨ u = t) := by
  unfold insertT
  by_cases h : t ∈ l
  · rw [if_pos h]
    constructor
    · exact Or.inl
    · rintro (h1 | h1)
      · exact h1
      · subst h1
        exact h
  · rw [if_neg h]
    simp [List.mem_append]

theorem mem_foldl_insertT (u : Topic) :
    ∀ (ts : List Topic) (l : List Topic), u ∈ l → u ∈ ts.foldl insertT l := by
  intro ts
  induction ts with
  | nil => intro l h; exact h
  | cons t ts ih =>
    intro l h
    exact ih (insertT l t) ((mem_insertT u t l).mpr (Or.inl h))

theorem QInv_eDoUnsub (st : EState) (t : Topic) (h : QInv st) :
    QInv (eDoUnsub st t).1 := by
  unfold eDoUnsub
  split
  · intro u vs hm
    obtain ⟨h1, h2⟩ := mem_qRemove t u vs st.messageQueue hm
    obtain ⟨h3, h4⟩ := h u vs h1
    constructor
    · exact (mem_removeT_iff u t st.channels).mpr ⟨h3, h2⟩
    · intro hmem
      exact h4 ((mem_removeT_iff u t st.readyChannels).mp hmem).1
  · exact h

theorem QInv_eUnsubFold :
    ∀ (ts : List Topic) (st : EState), QInv st → QInv (eUnsubFold st ts).1 := by
  intro ts
  induction ts with
  | nil => intro st h; exact h
  | cons t ts ih =>
    intro st h
    exact ih _ (QInv_eDoUnsub st t h)

theorem QInv_eDoPublish (st : EState) (t : Topic) (d : Data) (h : QInv st) :
    QInv (eDoPublish st t d).1 := by
  unfold eDoPublish
  split
  · rename_i hc
    split
    · exact h
    · rename_i hr
      intro u vs hm
      rcases mem_qPush_key t d u vs st.messageQueue hm with h1 | ⟨vs', h1⟩
      · subst h1
        exact ⟨hc, hr⟩
      · exact h u vs' h1
  · exact h

theorem QInv_eChannelReady (st : EState) (t : Topic) (h : QInv st) :
    QInv (eChannelReady st t).1 := by
  unfold eChannelReady
  split
  · intro u vs hm
    obtain ⟨h1, h2⟩ := mem_qRemove t u vs st.messageQueue hm
    obtain ⟨h3, h4⟩ := h u vs h1
    refine ⟨h3, ?_⟩
    intro hmem
    rcases (mem_insertT u t st.readyChannels).mp hmem with h5 | h5
    · exact h4 h5
    · exact h2 h5
  · exact h

theorem QInv_eApply (hk : Hooks) (op : EOp) (st : EState) (h : QInv st) :
    QInv (eApply hk st op) := by
  cases op with
  | connOp u =>
    show QInv (eConnect hk st u).1
    unfold eConnect
    rcases hb : (runHook1 "onBeforeConnect" hk.onBeforeConnect u).2 with e | v
    · simp only [hb]
      exact h
    · simp only [hb]
      rcases ha : (runHook1 "onAfterConnect" hk.onAfterConnect u).2 with e2 | v2 <;>
        simp only [ha] <;>
        exact h
  | subOp ts =>
    show QInv (eSubscribe hk st ts).1
    unfold eSubscribe
    rcases hb : (runHook1 "onBeforeSubscribe" hk.onBeforeSubscribe ts).2 with e | v
    · simp only [hb]
      exact h
    · simp only [hb]
      split
      · intro u vs hm
        obtain ⟨h1, h2⟩ := h u vs hm
        exact ⟨mem_foldl_insertT u ts st.channels h1, h2⟩
      · exact h
  | unsubOp ts =>
    show QInv (eUnsubscribe hk st ts).1
    unfold eUnsubscribe
    rcases hb : (runHook1 "onBeforeUnsubscribe" hk.onBeforeUnsubscribe ts).2 with e | v
    · simp only [hb]
      exact h
    · simp only [hb]
      exact QInv_eUnsubFold ts st h
  | pubOp t d =>
    show QInv (ePublish hk st t d).1
    unfold ePublish
    rcases hb : (runBeforePublish hk.onBeforePublish t d).2 with e | ⟨t', d'⟩
    · simp only [hb]
      exact h
    · simp only [hb]
      exact QInv_eDoPublish st t' d' h
  | discOp =>
    show QInv (eDisconnect hk st).1
    unfold eDisconnect
    rcases hb : (runHook0 "onBeforeDisconnect" hk.onBeforeDisconnect).2 with e | v
    · simp only [hb]
      exact h
    · simp only [hb]
      rcases ha : (runHook0 "onAfterDisconnect" hk.onAfterDisconnect).2 with e2 | v2 <;>
        simp only [ha] <;>
        (intro u vs hm; simp at hm)
  | readyOp t =>
    exact QInv_eChannelReady st t h

/-- C10.  After any sequence of connect, subscribe, unsubscribe,
publish, disconnect and subscription-acknowledgement steps starting
from a fresh Echo adapter, every topic with a message-queue entry is a
subscribed channel and is not yet acknowledged. -/
theorem echo_queue_invariant (hk : Hooks) (he : Bool) (ops : List EOp) :
    QInv (ops.foldl (eApply hk) (eInit he)) := by
  have haux : ∀ (l : List EOp) (st : EState), QInv st → QInv (l.foldl (eApply hk) st) := by
    intro l
    induction l with
    | nil => intro st h; exact h
    | cons op l ih =>
      intro st h
      exact ih _ (QInv_eApply hk op st h)
  refine haux ops (eInit he) ?_
  intro u vs hm
  simp [eInit] at hm

/-- The queue invariant is not vacuous: connect, subscribe and one
pending publish reach a state whose message queue holds an entry, and
that entry's topic is subscribed and not yet acknowledged. -/
theorem echo_queue_reachable_nonempty :
    (([EOp.connOp "u", EOp.subOp ["r"], EOp.pubOp "r" 5]).foldl (eApply noHooks)
        (eInit true)).messageQueue = [("r", [5])]
    ∧ "r" ∈ (([EOp.connOp "u", EOp.subOp ["r"], EOp.pubOp "r" 5]).foldl (eApply noHooks)
        (eInit true)).channels
    ∧ "r" ∉ (([EOp.connOp "u", EOp.subOp ["r"], EOp.pubOp "r" 5]).foldl (eApply noHooks)
        (eInit true)).readyChannels := by
  refine ⟨rfl, ?_, ?_⟩ <;> decide
